import Mathlib

/-!
Verification of the collector cache core of the eurorack-docs-ui repository
(src/extensions/collector-cache-extension.js).

The cache decides, per declared work unit, whether to skip an expensive
external command (cache hit) or run it (miss), and after the build commits
pointer records and output trees back into the cache directory.

Modelling choices:
* The filesystem is a finite tree of named entries (files with string
  content, directories with entry lists); path.join arguments contribute
  slash-separated components.
* The SHA-256 digest from the node crypto library is an external collaborator
  and appears as an explicit function parameter named digest.  Claims that
  depend on collision freeness take injectivity of that parameter as a
  hypothesis.
* JSON.parse and JSON.stringify are likewise external and appear as the
  parameters parse and ser.  A parse result of none covers both a thrown
  parse error and a parsed value that is not usable as a pointer object
  (falsy in the JavaScript truthiness test on line 241).
-/

namespace CollectorCache

/-- Default cache directory, line 16 of collector-cache-extension.js. -/
def DEFAULT_CACHE_DIR : String := ".cache/antora/collector-cache"

/-- Association list lookup with string keys; models a JavaScript object
property read (obj[k]) and directory entry lookup by name. -/
def lookupAssoc {β : Type} : List (String × β) → String → Option β
  | [], _ => none
  | e :: rest, k => if e.1 = k then some e.2 else lookupAssoc rest k

/-- Association list update; models a JavaScript object property write
(obj[k] = v): an existing key keeps its position and receives the new value,
a new key is appended at the end. -/
def setAssoc {β : Type} : List (String × β) → String → β → List (String × β)
  | [], k, v => [(k, v)]
  | e :: rest, k, v => if e.1 = k then (k, v) :: rest else e :: setAssoc rest k v

/-- Helper for splitPath: accumulate the current component in reverse. -/
def splitPathAux : List Char → List Char → List String
  | [], acc => [String.mk acc.reverse]
  | c :: rest, acc =>
    if c = '/' then String.mk acc.reverse :: splitPathAux rest []
    else splitPathAux rest (c :: acc)

/-- Split a path string into its slash-separated components; models how each
string argument of path.join contributes components to the joined path. -/
def splitPath (s : String) : List String := splitPathAux s.data []

/-- A filesystem tree: a file with byte content (modelled as a string) or a
directory with a named entry list (the readdirSync order). -/
inductive FsTree where
  | file (content : String)
  | dir (entries : List (String × FsTree))

/-- Resolve a path inside a tree; none models a failing existsSync / statSync. -/
def FsTree.find? : List String → FsTree → Option FsTree
  | [], t => some t
  | _ :: _, .file _ => none
  | n :: rest, .dir es =>
    match lookupAssoc es n with
    | none => none
    | some c => FsTree.find? rest c

/-- Used by FsTree.write: descend into an existing child or a fresh directory. -/
def childOrEmpty : Option FsTree → FsTree
  | some t => t
  | none => FsTree.dir []

/-- Place a node at a path, creating intermediate directories, as
mkdirSync with the recursive option followed by a write does.  If an
intermediate component is an existing file the real code would throw (the
surrounding try catch then skips the cache update); the model replaces it,
and no claim exercises that path. -/
def FsTree.write : List String → FsTree → FsTree → FsTree
  | [], _, t' => t'
  | n :: rest, .dir es, t' =>
    .dir (setAssoc es n (FsTree.write rest (childOrEmpty (lookupAssoc es n)) t'))
  | n :: rest, .file _, t' =>
    .dir (setAssoc [] n (FsTree.write rest (.dir []) t'))

/-- Read a file; none models a missing path as well as a read that throws
because the path is a directory (both lead to the same decision outcome). -/
def readFile (fsys : FsTree) (p : List String) : Option String :=
  match FsTree.find? p fsys with
  | some (.file c) => some c
  | _ => none

/-- Pointer record written by beforePublish, lines 351 to 356.  outputDir
holds the content hash (the output location id), scanDir the declared output
directory of the work unit. -/
structure Pointer where
  outputDir : String
  scanDir : String
  sources : List (String × String)
  timestamp : String
deriving DecidableEq, Repr

/-- Reason attached to a cache miss, matching the branches of the decision
logic: sourcesMissing is the early miss of line 215 when hashing fails,
forced is the reason string FORCE_COLLECTOR=true, noPointer is the reason
string no cache entry, outputsMissing the reason string cached outputs
missing (lines 269 to 270). -/
inductive MissReason where
  | sourcesMissing
  | forced
  | noPointer
  | outputsMissing
deriving DecidableEq, Repr

/-- Decision outcome for one work unit: skip and reuse (hit) or run (miss). -/
inductive Decision where
  | hit
  | miss (reason : MissReason)
deriving DecidableEq, Repr

/-- Boolean lexicographic comparison of character lists by code point. -/
def charListLeb : List Char → List Char → Bool
  | [], _ => true
  | _ :: _, [] => false
  | a :: as, b :: bs =>
    if a.toNat < b.toNat then true
    else if b.toNat < a.toNat then false
    else charListLeb as bs

/-- Lexicographic string comparison; the default comparator that
Array.prototype.sort applies to the source path strings. -/
def strLeb (a b : String) : Bool := charListLeb a.data b.data

/-- Sort a list of strings lexicographically; models the sort call on line
425.  The order is total, transitive and antisymmetric, so every correct
sort produces this same output. -/
def sortStrings (l : List String) : List String :=
  l.insertionSort (fun a b => strLeb a b = true)

/-- Object property read used on line 428 (sourceHashes[key]); the keys fed
to it always come from the object itself, so the default is never returned. -/
def objGet (m : List (String × String)) (k : String) : String :=
  (lookupAssoc m k).getD ""

/-- computeContentHash, lines 423 to 432: concatenate the per file hashes in
lexicographic order of their source paths and digest the concatenation. -/
def computeContentHash (digest : String → String) (sourceHashes : List (String × String)) : String :=
  let sortedKeys := sortStrings (sourceHashes.map Prod.fst)
  let combined := String.join (sortedKeys.map fun k => objGet sourceHashes k)
  digest combined

/-- Loop body of computeHashes, lines 389 to 415: walk the declared sources
left to right, abort with none as soon as one is unreadable, otherwise
record its digest under the source path key. -/
def computeHashesAux (digest : String → String) (fsys : FsTree) (worktree : List String) :
    List (String × String) → List String → Option (List (String × String))
  | acc, [] => some acc
  | acc, source :: rest =>
    match readFile fsys (worktree ++ splitPath source) with
    | none => none
    | some content => computeHashesAux digest fsys worktree (setAssoc acc source (digest content)) rest

/-- computeHashes, lines 382 to 418: per source content digests, or none when
any declared source is absent or unreadable (no partial hash set escapes). -/
def computeHashes (digest : String → String) (fsys : FsTree) (worktree : List String)
    (sources : List String) : Option (List (String × String)) :=
  computeHashesAux digest fsys worktree [] sources

/-- loadPointerFile, lines 437 to 450: none when the record is absent, cannot
be read, or does not parse; a parse failure is caught locally and never
propagates. -/
def loadPointerFile (parse : String → Option Pointer) (fsys : FsTree)
    (pointerPath : List String) : Option Pointer :=
  match readFile fsys pointerPath with
  | none => none
  | some content => parse content

mutual
/-- Dispatch of checkDirectoryHasFiles on one entry: a file counts
immediately, a directory is searched recursively. -/
def treeHasFiles : FsTree → Bool
  | .file _ => true
  | .dir es => checkDirectoryHasFiles es

/-- checkDirectoryHasFiles, lines 484 to 498: recursively check whether a
directory contains at least one file. -/
def checkDirectoryHasFiles : List (String × FsTree) → Bool
  | [] => false
  | (_, t) :: rest => treeHasFiles t || checkDirectoryHasFiles rest
end

/-- checkOutputsExist, lines 455 to 479: true only if the output path exists,
is a directory, and recursively contains at least one file. -/
def checkOutputsExist (fsys : FsTree) (outputPath : List String) : Bool :=
  match FsTree.find? outputPath fsys with
  | none => false
  | some (.file _) => false
  | some (.dir es) => checkDirectoryHasFiles es

/-- Component hash directory, lines 88 and 140:
path.join(playbook.dir, cacheDir, hashes, componentName). -/
def componentHashDirOf (playbookDir : List String) (cacheDir componentName : String) :
    List String :=
  playbookDir ++ splitPath cacheDir ++ ["hashes"] ++ splitPath componentName

/-- Pointer record path, lines 234 and 348 and 358:
path.join(componentHashDir, key, fingerprint.json). -/
def pointerPathOf (playbookDir : List String) (cacheDir componentName key fingerprint : String) :
    List String :=
  componentHashDirOf playbookDir cacheDir componentName ++ splitPath key ++
    splitPath (fingerprint ++ ".json")

/-- Cached output location, lines 242 and 364:
path.join(playbook.dir, cacheDir, outputs, locationId, outputDir). -/
def cachedOutputPathOf (playbookDir : List String) (cacheDir locId outputDir : String) :
    List String :=
  playbookDir ++ splitPath cacheDir ++ ["outputs"] ++ splitPath locId ++ splitPath outputDir

/-- Decision logic for one work unit whose worktree exists, lines 211 to 287.
Hashing, pointer lookup and the output existence check happen before the
force flag is consulted; the flag only forces the final outcome and the
reported reason.  The scan redirection attached to a hit does not affect the
decision and is not modelled. -/
def decideEntry (digest : String → String) (parse : String → Option Pointer)
    (fsys : FsTree) (playbookDir : List String) (cacheDir componentName : String)
    (worktree : List String) (key : String) (sources : List String)
    (outputDir : String) (forceRun : Bool) : Decision :=
  match computeHashes digest fsys worktree sources with
  | none => .miss .sourcesMissing
  | some sourceHashes =>
    let contentHash := computeContentHash digest sourceHashes
    let pointer := loadPointerFile parse fsys
      (pointerPathOf playbookDir cacheDir componentName key contentHash)
    let cachedOutputsExist :=
      match pointer with
      | none => false
      | some p => checkOutputsExist fsys (cachedOutputPathOf playbookDir cacheDir p.outputDir outputDir)
    let shouldSkip := !forceRun && pointer.isSome && cachedOutputsExist
    if shouldSkip then Decision.hit
    else Decision.miss
      (if forceRun then .forced else if pointer.isNone then .noPointer else .outputsMissing)

/-- Commit step of beforePublish for one tracked entry, lines 334 to 371,
with the worktree already known.  The hashes recorded at decision time are
reused when present, recomputed otherwise; the pointer record is written
under the componentHashDir carried in the entry (derived from the configured
cache directory), while the output tree is copied under the hardcoded
DEFAULT_CACHE_DIR of line 309.  copyDirectory removes the target and then
reproduces the source tree exactly; when the source output path is a file,
readdirSync throws after the target directory was created, the loop catch
swallows it, and the freshly created empty directory remains. -/
def commitEntry (digest : String → String) (ser : Pointer → String) (fsys : FsTree)
    (playbookDir componentHashDir : List String) (key : String) (worktree : List String)
    (sources : List String) (outputDir : String)
    (sourceHashes : Option (List (String × String))) (timestamp : String) : FsTree :=
  let hashes :=
    match sourceHashes with
    | some hs => some hs
    | none => computeHashes digest fsys worktree sources
  match hashes with
  | none => fsys
  | some hs =>
    let contentHash := computeContentHash digest hs
    let pointer : Pointer :=
      { outputDir := contentHash, scanDir := outputDir, sources := hs, timestamp := timestamp }
    let pointerPath := componentHashDir ++ splitPath key ++ splitPath (contentHash ++ ".json")
    let fsys1 := fsys.write pointerPath (.file (ser pointer))
    let sourceOutputPath := worktree ++ splitPath outputDir
    let cachedOutputPath := cachedOutputPathOf playbookDir DEFAULT_CACHE_DIR contentHash outputDir
    match fsys1.find? sourceOutputPath with
    | some (.dir es) => fsys1.write cachedOutputPath (.dir es)
    | some (.file _) => fsys1.write cachedOutputPath (.dir [])
    | none => fsys1

/-! ### Helper lemmas: the lexicographic order on strings -/

theorem uint32_ext {x y : UInt32} (h : x.toBitVec = y.toBitVec) : x = y := by
  cases x
  cases y
  exact congrArg UInt32.mk h

theorem charToNat_inj {a b : Char} (h : a.toNat = b.toNat) : a = b := by
  apply Char.ext
  apply uint32_ext
  simp only [Char.toNat, UInt32.toNat] at h
  exact BitVec.eq_of_toNat_eq h

theorem charListLeb_total : ∀ x y : List Char, charListLeb x y = true ∨ charListLeb y x = true
  | [], _ => Or.inl rfl
  | _ :: _, [] => Or.inr rfl
  | a :: as, b :: bs => by
    rcases Nat.lt_trichotomy a.toNat b.toNat with h | h | h
    · left
      simp [charListLeb, h]
    · have h1 : ¬ a.toNat < b.toNat := by omega
      have h2 : ¬ b.toNat < a.toNat := by omega
      rcases charListLeb_total as bs with ih | ih <;>
        simp [charListLeb, h1, h2, ih]
    · right
      simp [charListLeb, h]

theorem charListLeb_trans :
    ∀ x y z : List Char, charListLeb x y = true → charListLeb y z = true →
      charListLeb x z = true
  | [], _, _, _, _ => rfl
  | _ :: _, [], _, h1, _ => by simp [charListLeb] at h1
  | _ :: _, _ :: _, [], _, h2 => by simp [charListLeb] at h2
  | a :: as, b :: bs, c :: cs, h1, h2 => by
    by_cases hab : a.toNat < b.toNat <;> by_cases hbc : b.toNat < c.toNat
    · have : a.toNat < c.toNat := by omega
      simp [charListLeb, this]
    · by_cases hcb : c.toNat < b.toNat
      · simp [charListLeb, hbc, hcb] at h2
      · have hbceq : b.toNat = c.toNat := by omega
        have : a.toNat < c.toNat := by omega
        simp [charListLeb, this]
    · by_cases hba : b.toNat < a.toNat
      · simp [charListLeb, hab, hba] at h1
      · have : a.toNat < c.toNat := by omega
        simp [charListLeb, this]
    · by_cases hba : b.toNat < a.toNat
      · simp [charListLeb, hab, hba] at h1
      · by_cases hcb : c.toNat < b.toNat
        · simp [charListLeb, hbc, hcb] at h2
        · have heq1 : ¬ a.toNat < c.toNat → ¬ c.toNat < a.toNat := by omega
          simp only [charListLeb, hab, hba, if_neg, if_false] at h1
          simp only [charListLeb, hbc, hcb, if_neg, if_false] at h2
          have hac : ¬ a.toNat < c.toNat := by omega
          have hca : ¬ c.toNat < a.toNat := by omega
          simp [charListLeb, hac, hca, charListLeb_trans as bs cs h1 h2]

theorem charListLeb_antisymm :
    ∀ x y : List Char, charListLeb x y = true → charListLeb y x = true → x = y
  | [], [], _, _ => rfl
  | [], _ :: _, _, h2 => by simp [charListLeb] at h2
  | _ :: _, [], h1, _ => by simp [charListLeb] at h1
  | a :: as, b :: bs, h1, h2 => by
    by_cases hab : a.toNat < b.toNat
    · have hba : ¬ b.toNat < a.toNat := by omega
      simp [charListLeb, hab, hba] at h2
    · by_cases hba : b.toNat < a.toNat
      · simp [charListLeb, hab, hba] at h1
      · have heq : a = b := charToNat_inj (by omega)
        simp only [charListLeb, hab, hba, if_neg, if_false] at h1 h2
        rw [heq, charListLeb_antisymm as bs h1 h2]

instance : IsTotal String (fun a b => strLeb a b = true) :=
  ⟨fun a b => charListLeb_total a.data b.data⟩

instance : IsTrans String (fun a b => strLeb a b = true) :=
  ⟨fun a b c => charListLeb_trans a.data b.data c.data⟩

instance : IsAntisymm String (fun a b => strLeb a b = true) :=
  ⟨fun a b h1 h2 => String.ext (charListLeb_antisymm a.data b.data h1 h2)⟩

theorem sortStrings_perm (l : List String) : (sortStrings l).Perm l :=
  List.perm_insertionSort _ l

theorem sortStrings_sorted (l : List String) :
    List.Sorted (fun a b => strLeb a b = true) (sortStrings l) :=
  List.sorted_insertionSort _ l

theorem sortStrings_eq_of_perm {l₁ l₂ : List String} (h : l₁.Perm l₂) :
    sortStrings l₁ = sortStrings l₂ :=
  List.eq_of_perm_of_sorted
    ((sortStrings_perm l₁).trans (h.trans (sortStrings_perm l₂).symm))
    (sortStrings_sorted l₁) (sortStrings_sorted l₂)

/-! ### Helper lemmas: association lists -/

theorem lookup_setAssoc_self {β : Type} :
    ∀ (es : List (String × β)) (k : String) (v : β),
      lookupAssoc (setAssoc es k v) k = some v
  | [], k, v => by simp [setAssoc, lookupAssoc]
  | e :: rest, k, v => by
    by_cases h : e.1 = k
    · simp [setAssoc, lookupAssoc, h]
    · simp [setAssoc, lookupAssoc, h, lookup_setAssoc_self rest k v]

theorem lookup_setAssoc_ne {β : Type} :
    ∀ (es : List (String × β)) (k k' : String) (v : β), k' ≠ k →
      lookupAssoc (setAssoc es k v) k' = lookupAssoc es k'
  | [], k, k', v, hne => by
    have hkk : ¬ k = k' := fun hh => hne hh.symm
    simp [setAssoc, lookupAssoc, hkk]
  | e :: rest, k, k', v, hne => by
    by_cases h : e.1 = k
    · have hkk : ¬ k = k' := fun hh => hne hh.symm
      have he' : ¬ e.1 = k' := by rw [h]; exact hkk
      simp [setAssoc, lookupAssoc, h, hkk, he']
    · by_cases h2 : e.1 = k'
      · simp [setAssoc, lookupAssoc, h, h2, hne]
      · simp [setAssoc, lookupAssoc, h, h2, lookup_setAssoc_ne rest k k' v hne]

theorem setAssoc_of_absent {β : Type} :
    ∀ (es : List (String × β)) (k : String) (v : β), lookupAssoc es k = none →
      setAssoc es k v = es ++ [(k, v)]
  | [], k, v, _ => rfl
  | e :: rest, k, v, h => by
    by_cases he : e.1 = k
    · simp [lookupAssoc, he] at h
    · simp only [lookupAssoc, he, if_neg, if_false] at h
      simp [setAssoc, he, setAssoc_of_absent rest k v h]

theorem lookup_append_of_absent {β : Type} :
    ∀ (a b : List (String × β)) (k : String), lookupAssoc a k = none →
      lookupAssoc (a ++ b) k = lookupAssoc b k
  | [], b, k, _ => rfl
  | e :: rest, b, k, h => by
    by_cases he : e.1 = k
    · simp [lookupAssoc, he] at h
    · simp only [lookupAssoc, he, if_neg, if_false] at h ⊢
      simp [lookup_append_of_absent rest b k h]

theorem lookup_mapped_of_mem {v : String → String} :
    ∀ (l : List String) (k : String), k ∈ l →
      lookupAssoc (l.map fun s => (s, v s)) k = some (v k)
  | [], k, h => by simp at h
  | s :: rest, k, h => by
    by_cases hs : s = k
    · subst hs
      simp [lookupAssoc]
    · cases h with
      | head => exact absurd rfl hs
      | tail _ h2 => simp [lookupAssoc, hs, lookup_mapped_of_mem rest k h2]

/-! ### Helper lemmas: string concatenation -/

theorem foldl_append_data (l : List String) (s : String) :
    (l.foldl (· ++ ·) s).data = s.data ++ (l.map String.data).flatten := by
  induction l generalizing s with
  | nil => simp
  | cons h t ih => simp [List.foldl, ih, String.data_append]

theorem join_data (l : List String) :
    (String.join l).data = (l.map String.data).flatten := by
  simpa [String.join] using foldl_append_data l ""

theorem join_length (l : List String) :
    (String.join l).length = (l.map String.length).sum := by
  show (String.join l).data.length = _
  rw [join_data, List.length_flatten, List.map_map]
  rfl

theorem join_inj_of_length_eq :
    ∀ l₁ l₂ : List String, l₁.map String.length = l₂.map String.length →
      String.join l₁ = String.join l₂ → l₁ = l₂
  | [], [], _, _ => rfl
  | [], _ :: _, hlen, _ => by simp at hlen
  | _ :: _, [], hlen, _ => by simp at hlen
  | a :: t₁, b :: t₂, hlen, hjoin => by
    simp only [List.map_cons, List.cons.injEq] at hlen
    have hdata : a.data ++ (t₁.map String.data).flatten =
        b.data ++ (t₂.map String.data).flatten := by
      have := congrArg String.data hjoin
      rwa [join_data, join_data, List.map_cons, List.map_cons,
        List.flatten_cons, List.flatten_cons] at this
    have hablen : a.data.length = b.data.length := hlen.1
    obtain ⟨hab, htails⟩ := List.append_inj hdata hablen
    have htl : String.join t₁ = String.join t₂ :=
      String.ext (by rw [join_data, join_data]; exact htails)
    rw [String.ext hab, join_inj_of_length_eq t₁ t₂ hlen.2 htl]

theorem map_eq_pointwise {α β : Type} {f g : α → β} :
    ∀ l : List α, l.map f = l.map g → ∀ a ∈ l, f a = g a
  | [], _, a, ha => by simp at ha
  | x :: t, h, a, ha => by
    simp only [List.map_cons, List.cons.injEq] at h
    cases ha with
    | head => exact h.1
    | tail _ h2 => exact map_eq_pointwise t h.2 a h2

theorem sum_map_ne_at {f g : String → Nat} :
    ∀ (K : List String) (s0 : String), K.Nodup → s0 ∈ K →
      (∀ s ∈ K, s ≠ s0 → f s = g s) → f s0 ≠ g s0 →
      (K.map f).sum ≠ (K.map g).sum
  | [], s0, _, hmem, _, _ => by simp at hmem
  | x :: t, s0, hnod, hmem, hagree, hne => by
    simp only [List.map_cons, List.sum_cons]
    by_cases hx : x = s0
    · subst hx
      have hnotin : x ∉ t := (List.nodup_cons.mp hnod).1
      have : t.map f = t.map g :=
        List.map_congr_left fun s hs =>
          hagree s (List.mem_cons_of_mem x hs) (fun h => hnotin (h ▸ hs))
      rw [this]
      omega
    · have hs0t : s0 ∈ t := by
        cases hmem with
        | head => exact absurd rfl hx
        | tail _ h2 => exact h2
      have hx' : f x = g x := hagree x (List.mem_cons_self x t) hx
      have ih := sum_map_ne_at t s0 (List.nodup_cons.mp hnod).2 hs0t
        (fun s hs hne2 => hagree s (List.mem_cons_of_mem x hs) hne2) hne
      omega

/-! ### Helper lemmas: filesystem trees -/

theorem write_find_self :
    ∀ (p : List String) (f t : FsTree), FsTree.find? p (FsTree.write p f t) = some t
  | [], _, _ => rfl
  | n :: rest, .dir es, t => by
    simp [FsTree.write, FsTree.find?, lookup_setAssoc_self,
      write_find_self rest (childOrEmpty (lookupAssoc es n)) t]
  | n :: rest, .file c, t => by
    simp [FsTree.write, FsTree.find?, lookup_setAssoc_self,
      write_find_self rest (FsTree.dir []) t]

theorem find_dir_cons (es : List (String × FsTree)) (n : String) (rest : List String) :
    FsTree.find? (n :: rest) (FsTree.dir es) =
      match lookupAssoc es n with
      | none => none
      | some c => FsTree.find? rest c := rfl

theorem find_dir_cons_some {es : List (String × FsTree)} {n : String} {c : FsTree}
    (h : lookupAssoc es n = some c) (rest : List String) :
    FsTree.find? (n :: rest) (FsTree.dir es) = FsTree.find? rest c := by
  rw [find_dir_cons, h]

theorem find_dir_cons_none {es : List (String × FsTree)} {n : String}
    (h : lookupAssoc es n = none) (rest : List String) :
    FsTree.find? (n :: rest) (FsTree.dir es) = none := by
  rw [find_dir_cons, h]

theorem write_find_diverge :
    ∀ (a : List String) (f t : FsTree) (x y : String) (p q : List String), x ≠ y →
      FsTree.find? (a ++ y :: q) (FsTree.write (a ++ x :: p) f t) =
        FsTree.find? (a ++ y :: q) f
  | [], .dir es, t, x, y, p, q, hxy => by
    simp only [List.nil_append, FsTree.write]
    rw [find_dir_cons, find_dir_cons,
      lookup_setAssoc_ne es x y (FsTree.write p (childOrEmpty (lookupAssoc es x)) t)
        (fun h => hxy h.symm)]
  | [], .file c, t, x, y, p, q, hxy => by
    simp only [List.nil_append, FsTree.write]
    rw [find_dir_cons_none
      ((lookup_setAssoc_ne [] x y (FsTree.write p (FsTree.dir []) t)
        (fun h => hxy h.symm)).trans rfl) q]
    rfl
  | n :: a, .dir es, t, x, y, p, q, hxy => by
    simp only [List.cons_append, FsTree.write, List.append_eq]
    rw [find_dir_cons_some (lookup_setAssoc_self es n _) (a ++ y :: q),
      write_find_diverge a (childOrEmpty (lookupAssoc es n)) t x y p q hxy,
      find_dir_cons]
    cases hl : lookupAssoc es n with
    | some c => simp [childOrEmpty]
    | none =>
      simp only [childOrEmpty]
      cases a <;> rfl
  | n :: a, .file c, t, x, y, p, q, hxy => by
    simp only [List.cons_append, FsTree.write, List.append_eq]
    rw [find_dir_cons_some (lookup_setAssoc_self [] n _) (a ++ y :: q),
      write_find_diverge a (FsTree.dir []) t x y p q hxy]
    cases a <;> rfl

/-! ### Helper lemmas: computeHashes -/

theorem computeHashesAux_none {digest : String → String} {fsys : FsTree} {worktree : List String} :
    ∀ (sources : List String) (acc : List (String × String)) (s : String), s ∈ sources →
      readFile fsys (worktree ++ splitPath s) = none →
      computeHashesAux digest fsys worktree acc sources = none
  | [], _, s, hmem, _ => by simp at hmem
  | x :: rest, acc, s, hmem, hnone => by
    cases hr : readFile fsys (worktree ++ splitPath x) with
    | none => simp [computeHashesAux, hr]
    | some c =>
      cases hmem with
      | head =>
        rw [hr] at hnone
        exact absurd hnone (by simp)
      | tail _ h2 =>
        simp [computeHashesAux, hr, computeHashesAux_none rest _ s h2 hnone]

theorem computeHashesAux_some_read {digest : String → String} {fsys : FsTree}
    {worktree : List String} :
    ∀ (sources : List String) (acc m : List (String × String)),
      computeHashesAux digest fsys worktree acc sources = some m →
      ∀ s ∈ sources, ∃ c, readFile fsys (worktree ++ splitPath s) = some c
  | [], _, _, _, s, hmem => by simp at hmem
  | x :: rest, acc, m, hsome, s, hmem => by
    cases hr : readFile fsys (worktree ++ splitPath x) with
    | none => simp [computeHashesAux, hr] at hsome
    | some c =>
      simp only [computeHashesAux, hr] at hsome
      cases hmem with
      | head => exact ⟨c, hr⟩
      | tail _ h2 => exact computeHashesAux_some_read rest _ m hsome s h2

theorem computeHashesAux_eq {digest : String → String} {fsys : FsTree} {worktree : List String} :
    ∀ (sources : List String) (acc : List (String × String)),
      sources.Nodup →
      (∀ s ∈ sources, lookupAssoc acc s = none) →
      (∀ s ∈ sources, (readFile fsys (worktree ++ splitPath s)).isSome) →
      computeHashesAux digest fsys worktree acc sources =
        some (acc ++ sources.map fun s =>
          (s, digest ((readFile fsys (worktree ++ splitPath s)).getD "")))
  | [], acc, _, _, _ => by simp [computeHashesAux]
  | x :: rest, acc, hnod, hdisj, hread => by
    obtain ⟨c, hc⟩ := Option.isSome_iff_exists.mp (hread x (List.mem_cons_self x rest))
    have hxnotin : x ∉ rest := (List.nodup_cons.mp hnod).1
    have hset : setAssoc acc x (digest c) = acc ++ [(x, digest c)] :=
      setAssoc_of_absent acc x _ (hdisj x (List.mem_cons_self x rest))
    have hdisj' : ∀ s ∈ rest, lookupAssoc (acc ++ [(x, digest c)]) s = none := by
      intro s hs
      rw [lookup_append_of_absent acc _ s (hdisj s (List.mem_cons_of_mem x hs))]
      have : ¬ x = s := fun h => hxnotin (h ▸ hs)
      simp [lookupAssoc, this]
    have ih := @computeHashesAux_eq digest fsys worktree rest (acc ++ [(x, digest c)])
      (List.nodup_cons.mp hnod).2 hdisj' (fun s hs => hread s (List.mem_cons_of_mem x hs))
    simp only [computeHashesAux, hc, hset, ih, List.map_cons]
    simp [List.append_assoc]

theorem computeHashes_some_read {digest : String → String} {fsys : FsTree}
    {worktree : List String} {sources : List String} {m : List (String × String)}
    (h : computeHashes digest fsys worktree sources = some m) :
    ∀ s ∈ sources, ∃ c, readFile fsys (worktree ++ splitPath s) = some c :=
  computeHashesAux_some_read sources [] m h

theorem computeHashes_none_of_missing {digest : String → String} {fsys : FsTree}
    {worktree : List String} {sources : List String} {s : String} (hmem : s ∈ sources)
    (habs : readFile fsys (worktree ++ splitPath s) = none) :
    computeHashes digest fsys worktree sources = none :=
  computeHashesAux_none sources [] s hmem habs

theorem computeHashes_shape {digest : String → String} {fsys : FsTree}
    {worktree : List String} {sources : List String} {m : List (String × String)}
    (hnod : sources.Nodup) (h : computeHashes digest fsys worktree sources = some m) :
    m = sources.map fun s =>
      (s, digest ((readFile fsys (worktree ++ splitPath s)).getD "")) := by
  have hread : ∀ s ∈ sources, (readFile fsys (worktree ++ splitPath s)).isSome := by
    intro s hs
    obtain ⟨c, hc⟩ := computeHashes_some_read h s hs
    simp [hc]
  have heq := @computeHashesAux_eq digest fsys worktree sources [] hnod
    (by intro s _; rfl) hread
  rw [computeHashes] at h
  rw [heq] at h
  simpa using h.symm

/-! ### Helper lemmas: computeContentHash -/

theorem computeContentHash_def (digest : String → String) (m : List (String × String)) :
    computeContentHash digest m =
      digest (String.join ((sortStrings (m.map Prod.fst)).map fun k => objGet m k)) := rfl

theorem contentHash_mapped (digest : String → String) (v : String → String)
    (sources : List String) :
    computeContentHash digest (sources.map fun s => (s, v s)) =
      digest (String.join ((sortStrings sources).map v)) := by
  rw [computeContentHash_def]
  have hkeys : (sources.map fun s => (s, v s)).map Prod.fst = sources := by
    rw [List.map_map]
    exact List.map_id sources
  rw [hkeys]
  congr 1
  congr 1
  apply List.map_congr_left
  intro k hk
  have hk' : k ∈ sources := ((sortStrings_perm sources).mem_iff).mp hk
  simp [objGet, lookup_mapped_of_mem sources k hk']

theorem lookup_perm {β : Type} {m₁ m₂ : List (String × β)} (h : m₁.Perm m₂) :
    ∀ k : String, (m₁.map Prod.fst).Nodup → lookupAssoc m₁ k = lookupAssoc m₂ k := by
  induction h with
  | nil => intro k _; rfl
  | cons e hp ih =>
    intro k hnod
    by_cases he : e.1 = k
    · simp [lookupAssoc, he]
    · simp only [lookupAssoc, he, if_neg, if_false]
      exact ih k (List.nodup_cons.mp (by simpa using hnod)).2
  | swap a b l =>
    intro k hnod
    have hba : b.1 ≠ a.1 := by
      simp only [List.map_cons, List.nodup_cons, List.mem_cons] at hnod
      exact fun h => hnod.1 (Or.inl h)
    by_cases hb : b.1 = k <;> by_cases ha : a.1 = k
    · exact absurd (hb.trans ha.symm) hba
    · simp [lookupAssoc, hb, ha]
    · simp [lookupAssoc, hb, ha]
    · simp [lookupAssoc, hb, ha]
  | trans h1 _ ih1 ih2 =>
    intro k hnod
    have hnod2 := ((h1.map Prod.fst).nodup_iff).mp hnod
    exact (ih1 k hnod).trans (ih2 k hnod2)

/-! ### Helper lemmas: the decision function -/

theorem decideEntry_sourcesMissing {digest : String → String} {parse : String → Option Pointer}
    {fsys : FsTree} {playbookDir : List String} {cacheDir componentName : String}
    {worktree : List String} {key : String} {sources : List String} {outputDir : String}
    {forceRun : Bool} (h : computeHashes digest fsys worktree sources = none) :
    decideEntry digest parse fsys playbookDir cacheDir componentName worktree key sources
      outputDir forceRun = .miss .sourcesMissing := by
  simp [decideEntry, h]

theorem decideEntry_hashed {digest : String → String} {parse : String → Option Pointer}
    {fsys : FsTree} {playbookDir : List String} {cacheDir componentName : String}
    {worktree : List String} {key : String} {sources : List String} {outputDir : String}
    {forceRun : Bool} {hs : List (String × String)}
    (h : computeHashes digest fsys worktree sources = some hs) :
    decideEntry digest parse fsys playbookDir cacheDir componentName worktree key sources
      outputDir forceRun =
      match loadPointerFile parse fsys
          (pointerPathOf playbookDir cacheDir componentName key (computeContentHash digest hs)) with
      | none => Decision.miss (if forceRun then .forced else .noPointer)
      | some p =>
        if forceRun then Decision.miss .forced
        else if checkOutputsExist fsys
            (cachedOutputPathOf playbookDir cacheDir p.outputDir outputDir) then Decision.hit
        else Decision.miss .outputsMissing := by
  simp only [decideEntry, h]
  cases hp : loadPointerFile parse fsys
      (pointerPathOf playbookDir cacheDir componentName key (computeContentHash digest hs)) with
  | none => cases forceRun <;> simp
  | some p =>
    cases forceRun with
    | false =>
      cases ho : checkOutputsExist fsys
          (cachedOutputPathOf playbookDir cacheDir p.outputDir outputDir) <;> simp [ho]
    | true => simp

theorem pointerPathOf_shape (playbookDir : List String) (cacheDir componentName key H : String) :
    pointerPathOf playbookDir cacheDir componentName key H =
      (playbookDir ++ splitPath cacheDir) ++ "hashes" ::
        (splitPath componentName ++ (splitPath key ++ splitPath (H ++ ".json"))) := by
  simp [pointerPathOf, componentHashDirOf, List.append_assoc]

theorem cachedOutputPathOf_shape (playbookDir : List String) (cacheDir locId outputDir : String) :
    cachedOutputPathOf playbookDir cacheDir locId outputDir =
      (playbookDir ++ splitPath cacheDir) ++ "outputs" ::
        (splitPath locId ++ splitPath outputDir) := by
  simp [cachedOutputPathOf, List.append_assoc]

theorem length_pos_of_ne_empty {s : String} (h : s ≠ "") : 0 < s.length := by
  show 0 < s.data.length
  cases hs : s.data with
  | nil => exact absurd (String.ext hs) h
  | cons c t => simp [hs]

theorem contentHash_ne_of_single_change {digest : String → String}
    (hinj : Function.Injective digest) (sources : List String) (v₁ v₂ : String → String)
    (s0 : String) (hnod : sources.Nodup) (hmem : s0 ∈ sources)
    (hagree : ∀ s ∈ sources, s ≠ s0 → v₁ s = v₂ s) (hdiff : v₁ s0 ≠ v₂ s0) :
    digest (String.join ((sortStrings sources).map v₁)) ≠
      digest (String.join ((sortStrings sources).map v₂)) := by
  intro heq
  have hjoin := hinj heq
  have hKnod : (sortStrings sources).Nodup :=
    ((sortStrings_perm sources).nodup_iff).mpr hnod
  have hmemK : s0 ∈ sortStrings sources := ((sortStrings_perm sources).mem_iff).mpr hmem
  by_cases hlen : (v₁ s0).length = (v₂ s0).length
  · have hlens : ((sortStrings sources).map v₁).map String.length =
        ((sortStrings sources).map v₂).map String.length := by
      rw [List.map_map, List.map_map]
      apply List.map_congr_left
      intro s hs
      by_cases hss : s = s0
      · subst hss
        simpa using hlen
      · have hv := hagree s (((sortStrings_perm sources).mem_iff).mp hs) hss
        simp [Function.comp, hv]
    have hlists := join_inj_of_length_eq _ _ hlens hjoin
    exact hdiff (map_eq_pointwise _ hlists s0 hmemK)
  · have hsum : (((sortStrings sources).map v₁).map String.length).sum ≠
        (((sortStrings sources).map v₂).map String.length).sum := by
      rw [List.map_map, List.map_map]
      apply sum_map_ne_at (sortStrings sources) s0 hKnod hmemK
      · intro s hs hss
        have hv := hagree s (((sortStrings_perm sources).mem_iff).mp hs) hss
        simp [Function.comp, hv]
      · simpa [Function.comp] using hlen
    apply hsum
    rw [← join_length, ← join_length, hjoin]

/-! ### Claim theorems -/

/-- C4: computeContentHash is deterministic and canonicalizing.  It
concatenates the per file hashes in lexicographic order of their source
paths and digests the concatenation, so any two SourceHashSets holding the
same (path, hash) pairs, in whatever order they were inserted or declared,
yield the same fingerprint; being a pure function, repeated invocations on
the same set trivially agree. -/
theorem fingerprint_deterministic_canonical (digest : String → String)
    (m₁ m₂ : List (String × String)) (hperm : m₁.Perm m₂)
    (hnod : (m₁.map Prod.fst).Nodup) :
    computeContentHash digest m₁ = computeContentHash digest m₂ := by
  rw [computeContentHash_def, computeContentHash_def]
  have hkeys : (m₁.map Prod.fst).Perm (m₂.map Prod.fst) := hperm.map Prod.fst
  rw [← sortStrings_eq_of_perm hkeys]
  congr 1
  congr 1
  apply List.map_congr_left
  intro k _
  simp only [objGet, lookup_perm hperm k hnod]

/-- C4 witness: the fingerprint of a two element hash set does not depend on
the insertion order of its pairs. -/
theorem fingerprint_deterministic_canonical_w :
    computeContentHash (fun s => s) [("b.txt", "k2"), ("a.txt", "k1")] =
      computeContentHash (fun s => s) [("a.txt", "k1"), ("b.txt", "k2")] :=
  fingerprint_deterministic_canonical (fun s => s) _ _ (by decide) (by decide)

/-- C10: the fingerprint depends only on the sequence of hash values ordered
by source path, not on the path strings themselves: hash sets whose
path-sorted hash value sequences agree get the same fingerprint, and in
particular renaming the single declared source of a unit while keeping its
content leaves the fingerprint unchanged. -/
theorem fingerprint_ignores_paths (digest : String → String) :
    (∀ m₁ m₂ : List (String × String),
      (sortStrings (m₁.map Prod.fst)).map (objGet m₁) =
        (sortStrings (m₂.map Prod.fst)).map (objGet m₂) →
      computeContentHash digest m₁ = computeContentHash digest m₂) ∧
    (∀ p q h : String,
      computeContentHash digest [(p, h)] = computeContentHash digest [(q, h)]) := by
  constructor
  · intro m₁ m₂ hvals
    show digest (String.join ((sortStrings (m₁.map Prod.fst)).map (objGet m₁))) =
      digest (String.join ((sortStrings (m₂.map Prod.fst)).map (objGet m₂)))
    rw [hvals]
  · intro p q h
    show digest (String.join ((sortStrings [p]).map (objGet [(p, h)]))) =
      digest (String.join ((sortStrings [q]).map (objGet [(q, h)])))
    have hsingle : ∀ r : String, (sortStrings [r]).map (objGet [(r, h)]) = [h] := by
      intro r
      show [objGet [(r, h)] r] = [h]
      simp [objGet, lookupAssoc]
    rw [hsingle p, hsingle q]

/-- C10 witness: two hash sets over different paths but identical path-sorted
hash sequences share a fingerprint, as does a renamed single source. -/
theorem fingerprint_ignores_paths_w :
    computeContentHash (fun s => s) [("a", "h1"), ("b", "h2")] =
        computeContentHash (fun s => s) [("c", "h1"), ("d", "h2")] ∧
    computeContentHash (fun s => s) [("a.txt", "h")] =
        computeContentHash (fun s => s) [("b.txt", "h")] :=
  ⟨(fingerprint_ignores_paths (fun s => s)).1 _ _ (by decide),
    (fingerprint_ignores_paths (fun s => s)).2 "a.txt" "b.txt" "h"⟩

/-- C5: sensitivity of the fingerprint, assuming the digest is collision free
(injective) and never returns the empty string (a SHA-256 hex digest has 64
characters).  Changing the content of any one declared source changes the
fingerprint, and declaring an additional source path (all other contents
unchanged) changes the fingerprint; read backwards the second part also
covers removing a declared path.  Since computeContentHash canonicalizes the
order (C4), appending the added path loses no generality. -/
theorem fingerprint_sensitivity (digest : String → String)
    (hinj : Function.Injective digest) (hne : ∀ s, digest s ≠ "") :
    (∀ (fsys fsys' : FsTree) (worktree sources : List String)
        (m m' : List (String × String)) (s0 c c' : String),
      sources.Nodup → s0 ∈ sources →
      computeHashes digest fsys worktree sources = some m →
      computeHashes digest fsys' worktree sources = some m' →
      readFile fsys (worktree ++ splitPath s0) = some c →
      readFile fsys' (worktree ++ splitPath s0) = some c' → c ≠ c' →
      (∀ s ∈ sources, s ≠ s0 →
        readFile fsys (worktree ++ splitPath s) = readFile fsys' (worktree ++ splitPath s)) →
      computeContentHash digest m ≠ computeContentHash digest m') ∧
    (∀ (fsys : FsTree) (worktree sources : List String)
        (m m' : List (String × String)) (s0 : String),
      sources.Nodup → s0 ∉ sources →
      computeHashes digest fsys worktree sources = some m →
      computeHashes digest fsys worktree (sources ++ [s0]) = some m' →
      computeContentHash digest m ≠ computeContentHash digest m') := by
  constructor
  · intro fsys fsys' worktree sources m m' s0 c c' hnod hmem hm hm' hc hc' hcc hsame
    rw [computeHashes_shape hnod hm, computeHashes_shape hnod hm',
      contentHash_mapped, contentHash_mapped]
    apply contentHash_ne_of_single_change hinj sources _ _ s0 hnod hmem
    · intro s hs hss
      rw [hsame s hs hss]
    · rw [hc, hc']
      simpa using hinj.ne hcc
  · intro fsys worktree sources m m' s0 hnod hnot hm hm'
    have hnod' : (sources ++ [s0]).Nodup := by
      refine List.Nodup.append hnod (List.nodup_singleton s0) ?_
      intro a ha hb
      rw [List.mem_singleton] at hb
      subst hb
      exact hnot ha
    rw [computeHashes_shape hnod hm, computeHashes_shape hnod' hm',
      contentHash_mapped, contentHash_mapped]
    intro heq
    have hjoin := hinj heq
    have hlen := congrArg String.length hjoin
    rw [join_length, join_length] at hlen
    rw [List.map_map, List.map_map] at hlen
    have h1 := (((sortStrings_perm sources)).map
      (String.length ∘ fun s => digest ((readFile fsys (worktree ++ splitPath s)).getD ""))).sum_eq
    have h2 := (((sortStrings_perm (sources ++ [s0]))).map
      (String.length ∘ fun s => digest ((readFile fsys (worktree ++ splitPath s)).getD ""))).sum_eq
    rw [h1, h2, List.map_append, List.sum_append] at hlen
    have hpos := length_pos_of_ne_empty
      (hne ((readFile fsys (worktree ++ splitPath s0)).getD ""))
    simp only [List.map_cons, List.map_nil, List.sum_cons, List.sum_nil, Function.comp] at hlen
    omega

/-- C5 witness: with an injective, never empty digest, flipping the content
of a.txt changes the fingerprint, and adding b.txt as a declared source
changes the fingerprint. -/
theorem fingerprint_sensitivity_w :
    computeContentHash (fun s => String.mk ('x' :: s.data)) [("a.txt", "xx"), ("b.txt", "xy")] ≠
        computeContentHash (fun s => String.mk ('x' :: s.data)) [("a.txt", "xz"), ("b.txt", "xy")] ∧
    computeContentHash (fun s => String.mk ('x' :: s.data)) [("a.txt", "xx")] ≠
        computeContentHash (fun s => String.mk ('x' :: s.data)) [("a.txt", "xx"), ("b.txt", "xy")] := by
  have hinj : Function.Injective (fun s : String => String.mk ('x' :: s.data)) := by
    intro a b h
    have h2 : 'x' :: a.data = 'x' :: b.data := congrArg String.data h
    exact String.ext (List.cons.inj h2).2
  have hne : ∀ s : String, (fun s : String => String.mk ('x' :: s.data)) s ≠ "" := by
    intro s h
    exact nomatch congrArg String.data h
  constructor
  · exact (fingerprint_sensitivity _ hinj hne).1
      (.dir [("a.txt", .file "x"), ("b.txt", .file "y")])
      (.dir [("a.txt", .file "z"), ("b.txt", .file "y")])
      [] ["a.txt", "b.txt"] _ _ "a.txt" "x" "z"
      (by decide) (by decide) rfl rfl rfl rfl (by decide) (by decide)
  · exact (fingerprint_sensitivity _ hinj hne).2
      (.dir [("a.txt", .file "x"), ("b.txt", .file "y")])
      [] ["a.txt"] _ _ "b.txt" (by decide) (by decide) rfl rfl

/-- C1: with the force flag unset, the decision is a hit exactly when the
pointer record for the computed fingerprint loads and the output store holds
a non empty directory tree at the cached output location the pointer
indirects to; absence of either yields a miss. -/
theorem cache_hit_iff (digest : String → String) (parse : String → Option Pointer)
    (fsys : FsTree) (playbookDir : List String) (cacheDir componentName : String)
    (worktree : List String) (key : String) (sources : List String) (outputDir : String) :
    decideEntry digest parse fsys playbookDir cacheDir componentName worktree key sources
        outputDir false = .hit ↔
      ∃ hs p, computeHashes digest fsys worktree sources = some hs ∧
        loadPointerFile parse fsys
          (pointerPathOf playbookDir cacheDir componentName key
            (computeContentHash digest hs)) = some p ∧
        checkOutputsExist fsys
          (cachedOutputPathOf playbookDir cacheDir p.outputDir outputDir) = true := by
  constructor
  · intro h
    cases hh : computeHashes digest fsys worktree sources with
    | none =>
      rw [decideEntry_sourcesMissing hh] at h
      exact absurd h (by simp)
    | some hs =>
      rw [decideEntry_hashed hh] at h
      cases hp : loadPointerFile parse fsys
          (pointerPathOf playbookDir cacheDir componentName key
            (computeContentHash digest hs)) with
      | none =>
        rw [hp] at h
        simp at h
      | some p =>
        rw [hp] at h
        by_cases ho : checkOutputsExist fsys
            (cachedOutputPathOf playbookDir cacheDir p.outputDir outputDir) = true
        · exact ⟨hs, p, rfl, hp, ho⟩
        · rw [Bool.not_eq_true] at ho
          simp [ho] at h
  · rintro ⟨hs, p, hh, hp, ho⟩
    rw [decideEntry_hashed hh, hp]
    simp [ho]

/-- C3 counterexample: with the force flag set but a declared source file
missing, the decision is a miss whose reason is the missing sources, not the
forced reason, so the flag is not checked first and does not bypass hashing. -/
theorem force_first_counterexample :
    decideEntry (fun _ => "h")
        (fun _ => some { outputDir := "h", scanDir := "out", sources := [], timestamp := "t" })
        (FsTree.dir []) ["pb"] "cc" "comp" ["wt"] "k" ["a.txt"] "out" true =
      .miss .sourcesMissing ∧
    decideEntry (fun _ => "h")
        (fun _ => some { outputDir := "h", scanDir := "out", sources := [], timestamp := "t" })
        (FsTree.dir []) ["pb"] "cc" "comp" ["wt"] "k" ["a.txt"] "out" true ≠
      .miss .forced := by decide

/-- C3 amended: with the force flag set the decision is never a hit, and it
is Miss forced whenever hashing succeeds, even when a valid pointer and a
populated output store entry exist; but the flag is consulted only after
hashing, pointer lookup and the output existence check, so when a source is
unreadable the reported reason is the missing sources instead. -/
theorem force_flag_forces_miss (digest : String → String) (parse : String → Option Pointer)
    (fsys : FsTree) (playbookDir : List String) (cacheDir componentName : String)
    (worktree : List String) (key : String) (sources : List String) (outputDir : String) :
    decideEntry digest parse fsys playbookDir cacheDir componentName worktree key sources
        outputDir true ≠ .hit ∧
    (∀ hs, computeHashes digest fsys worktree sources = some hs →
      decideEntry digest parse fsys playbookDir cacheDir componentName worktree key sources
        outputDir true = .miss .forced) := by
  constructor
  · cases hh : computeHashes digest fsys worktree sources with
    | none =>
      rw [decideEntry_sourcesMissing hh]
      simp
    | some hs =>
      rw [decideEntry_hashed hh]
      cases hp : loadPointerFile parse fsys
          (pointerPathOf playbookDir cacheDir componentName key
            (computeContentHash digest hs)) <;> simp
  · intro hs hh
    rw [decideEntry_hashed hh]
    cases hp : loadPointerFile parse fsys
        (pointerPathOf playbookDir cacheDir componentName key
          (computeContentHash digest hs)) <;> simp

/-- C3 witness: a state holding a valid pointer and a populated output entry
(the same state decides hit when the flag is unset) still decides Miss
forced under the flag. -/
theorem force_flag_forces_miss_w :
    decideEntry (fun _ => "h")
        (fun _ => some ⟨"h", "out", [("a.txt", "h")], "t"⟩)
        (FsTree.dir [("wt", .dir [("a.txt", .file "x")]),
          ("pb", .dir [("cc", .dir [
            ("hashes", .dir [("comp", .dir [("k", .dir [("h.json", .file "P")])])]),
            ("outputs", .dir [("h", .dir [("out", .dir [("f.txt", .file "z")])])])])])])
        ["pb"] "cc" "comp" ["wt"] "k" ["a.txt"] "out" true = .miss .forced :=
  (force_flag_forces_miss (fun _ => "h")
      (fun _ => some ⟨"h", "out", [("a.txt", "h")], "t"⟩)
      (FsTree.dir [("wt", .dir [("a.txt", .file "x")]),
        ("pb", .dir [("cc", .dir [
          ("hashes", .dir [("comp", .dir [("k", .dir [("h.json", .file "P")])])]),
          ("outputs", .dir [("h", .dir [("out", .dir [("f.txt", .file "z")])])])])])])
      ["pb"] "cc" "comp" ["wt"] "k" ["a.txt"] "out").2 [("a.txt", "h")] (by decide)

/-- C8: if any one declared source is absent or unreadable, hashing aborts
with no partial hash set and the decision is Miss with the missing sources
reason, whatever the pointer store, output store and force flag say; the
failure stays inside the extension and is not raised. -/
theorem missing_source_fails_open (digest : String → String) (parse : String → Option Pointer)
    (fsys : FsTree) (playbookDir : List String) (cacheDir componentName : String)
    (worktree : List String) (key : String) (sources : List String) (outputDir : String)
    (forceRun : Bool) (s : String) (hmem : s ∈ sources)
    (habs : readFile fsys (worktree ++ splitPath s) = none) :
    computeHashes digest fsys worktree sources = none ∧
    decideEntry digest parse fsys playbookDir cacheDir componentName worktree key sources
      outputDir forceRun = .miss .sourcesMissing :=
  ⟨computeHashes_none_of_missing hmem habs,
    decideEntry_sourcesMissing (computeHashes_none_of_missing hmem habs)⟩

/-- C8 witness: with b.txt absent from the worktree, hashing yields none and
the decision is a miss for missing sources even though a pointer file and a
populated output entry exist. -/
theorem missing_source_fails_open_w :
    computeHashes (fun _ => "h")
        (FsTree.dir [("wt", .dir [("a.txt", .file "x")]),
          ("pb", .dir [("cc", .dir [
            ("hashes", .dir [("comp", .dir [("k", .dir [("h.json", .file "P")])])]),
            ("outputs", .dir [("h", .dir [("out", .dir [("f.txt", .file "z")])])])])])])
        ["wt"] ["a.txt", "b.txt"] = none ∧
    decideEntry (fun _ => "h")
        (fun _ => some { outputDir := "h", scanDir := "out", sources := [], timestamp := "t" })
        (FsTree.dir [("wt", .dir [("a.txt", .file "x")]),
          ("pb", .dir [("cc", .dir [
            ("hashes", .dir [("comp", .dir [("k", .dir [("h.json", .file "P")])])]),
            ("outputs", .dir [("h", .dir [("out", .dir [("f.txt", .file "z")])])])])])])
        ["pb"] "cc" "comp" ["wt"] "k" ["a.txt", "b.txt"] "out" false = .miss .sourcesMissing :=
  missing_source_fails_open (fun _ => "h")
    (fun _ => some { outputDir := "h", scanDir := "out", sources := [], timestamp := "t" })
    (FsTree.dir [("wt", .dir [("a.txt", .file "x")]),
      ("pb", .dir [("cc", .dir [
        ("hashes", .dir [("comp", .dir [("k", .dir [("h.json", .file "P")])])]),
        ("outputs", .dir [("h", .dir [("out", .dir [("f.txt", .file "z")])])])])])])
    ["pb"] "cc" "comp" ["wt"] "k" ["a.txt", "b.txt"] "out" false "b.txt" (by decide) rfl

/-- C9: a pointer record that is present but does not parse is treated
exactly like a missing record: loadPointerFile returns none (the parse
failure is swallowed inside it), and the decision is a miss with the no
cache entry reason. -/
theorem corrupt_pointer_notfound (digest : String → String) (parse : String → Option Pointer)
    (fsys : FsTree) (playbookDir : List String) (cacheDir componentName : String)
    (worktree : List String) (key : String) (sources : List String) (outputDir : String)
    (hs : List (String × String)) (content : String)
    (hread : readFile fsys (pointerPathOf playbookDir cacheDir componentName key
        (computeContentHash digest hs)) = some content)
    (hparse : parse content = none) :
    loadPointerFile parse fsys (pointerPathOf playbookDir cacheDir componentName key
        (computeContentHash digest hs)) = none ∧
    (computeHashes digest fsys worktree sources = some hs →
      decideEntry digest parse fsys playbookDir cacheDir componentName worktree key sources
        outputDir false = .miss .noPointer) := by
  have hl : loadPointerFile parse fsys (pointerPathOf playbookDir cacheDir componentName key
      (computeContentHash digest hs)) = none := by
    simp [loadPointerFile, hread, hparse]
  refine ⟨hl, fun hh => ?_⟩
  rw [decideEntry_hashed hh, hl]
  simp

/-- C9 witness: a garbage pointer record that fails to parse produces the
same no cache entry miss that a missing record would. -/
theorem corrupt_pointer_notfound_w :
    decideEntry (fun _ => "h") (fun _ => none)
        (FsTree.dir [("wt", .dir [("a.txt", .file "x")]),
          ("pb", .dir [("cc", .dir [
            ("hashes", .dir [("comp", .dir [("k", .dir [("h.json", .file "garbage")])])]),
            ("outputs", .dir [("h", .dir [("out", .dir [("f.txt", .file "z")])])])])])])
        ["pb"] "cc" "comp" ["wt"] "k" ["a.txt"] "out" false = .miss .noPointer :=
  (corrupt_pointer_notfound (fun _ => "h") (fun _ => none)
      (FsTree.dir [("wt", .dir [("a.txt", .file "x")]),
        ("pb", .dir [("cc", .dir [
          ("hashes", .dir [("comp", .dir [("k", .dir [("h.json", .file "garbage")])])]),
          ("outputs", .dir [("h", .dir [("out", .dir [("f.txt", .file "z")])])])])])])
      ["pb"] "cc" "comp" ["wt"] "k" ["a.txt"] "out" [("a.txt", "h")] "garbage" rfl rfl).2 rfl

/-- C7 counterexample: when the live output directory of a unit is empty, the
commit step still completes (an empty tree is copied), yet checkOutputsExist
at the cached output location afterwards reports false, so the commit
postcondition of the claim does not hold unconditionally. -/
theorem commit_empty_output_counterexample :
    checkOutputsExist
      (commitEntry (fun _ => "h") (fun _ => "P")
        (FsTree.dir [("wt", .dir [("a.txt", .file "x"), ("out", .dir [])])])
        ["pb"] (componentHashDirOf ["pb"] DEFAULT_CACHE_DIR "comp") "k" ["wt"] ["a.txt"] "out"
        (some [("a.txt", "h")]) "t")
      (cachedOutputPathOf ["pb"] DEFAULT_CACHE_DIR "h" "out") = false := by decide

/-- C7 amended: after the commit step copies the live output tree for a
fingerprint, checkOutputsExist at the cached output location returns true
provided that tree holds at least one file (recursively); the copy
reproduces the tree exactly, so non emptiness carries over. -/
theorem commit_outputs_exist (digest : String → String) (ser : Pointer → String)
    (fsys : FsTree) (playbookDir componentHashDir : List String) (key : String)
    (worktree : List String) (sources : List String) (outputDir : String)
    (hs : List (String × String)) (ts : String) (es : List (String × FsTree))
    (hsrc : FsTree.find? (worktree ++ splitPath outputDir)
        (fsys.write (componentHashDir ++ splitPath key ++
            splitPath (computeContentHash digest hs ++ ".json"))
          (.file (ser ⟨computeContentHash digest hs, outputDir, hs, ts⟩))) = some (.dir es))
    (hne : checkDirectoryHasFiles es = true) :
    checkOutputsExist
      (commitEntry digest ser fsys playbookDir componentHashDir key worktree sources outputDir
        (some hs) ts)
      (cachedOutputPathOf playbookDir DEFAULT_CACHE_DIR (computeContentHash digest hs)
        outputDir) = true := by
  simp only [commitEntry]
  rw [hsrc]
  simp [checkOutputsExist, write_find_self, hne]

/-- C7 witness: committing an output tree holding one file makes
checkOutputsExist true at the cached output location. -/
theorem commit_outputs_exist_w :
    checkOutputsExist
      (commitEntry (fun _ => "h") (fun _ => "P")
        (FsTree.dir [("wt", .dir [("a.txt", .file "x"), ("out", .dir [("f.txt", .file "z")])])])
        ["pb"] (componentHashDirOf ["pb"] DEFAULT_CACHE_DIR "comp") "k" ["wt"] ["a.txt"] "out"
        (some [("a.txt", "h")]) "t")
      (cachedOutputPathOf ["pb"] DEFAULT_CACHE_DIR
        (computeContentHash (fun _ => "h") [("a.txt", "h")]) "out") = true :=
  commit_outputs_exist (fun _ => "h") (fun _ => "P")
    (FsTree.dir [("wt", .dir [("a.txt", .file "x"), ("out", .dir [("f.txt", .file "z")])])])
    ["pb"] (componentHashDirOf ["pb"] DEFAULT_CACHE_DIR "comp") "k" ["wt"] ["a.txt"] "out"
    [("a.txt", "h")] "t" [("f.txt", .file "z")] rfl rfl

/-- C2 counterexample: Scenario A as stated fails when the executed unit
leaves an empty output directory: the first evaluation is Miss with no cache
entry, the commit step runs (pointer saved, empty tree copied), yet the
re-evaluation is still a miss rather than the claimed hit. -/
theorem scenarioA_empty_output_counterexample :
    decideEntry (fun _ => "h") (fun _ => some ⟨"h", "out", [("a.txt", "h"), ("b.txt", "h")], "t"⟩)
        (FsTree.dir [("wt",
          .dir [("a.txt", .file "x"), ("b.txt", .file "y"), ("out", .dir [])])])
        ["pb"] DEFAULT_CACHE_DIR "comp" ["wt"] "k" ["a.txt", "b.txt"] "out" false =
      .miss .noPointer ∧
    decideEntry (fun _ => "h") (fun _ => some ⟨"h", "out", [("a.txt", "h"), ("b.txt", "h")], "t"⟩)
        (commitEntry (fun _ => "h") (fun _ => "P")
          (FsTree.dir [("wt",
            .dir [("a.txt", .file "x"), ("b.txt", .file "y"), ("out", .dir [])])])
          ["pb"] (componentHashDirOf ["pb"] DEFAULT_CACHE_DIR "comp") "k" ["wt"]
          ["a.txt", "b.txt"] "out" (some [("a.txt", "h"), ("b.txt", "h")]) "t")
        ["pb"] DEFAULT_CACHE_DIR "comp" ["wt"] "k" ["a.txt", "b.txt"] "out" false ≠ .hit := by
  decide

/-- C2 amended: Scenario A round trip under the default cache directory.  A
unit whose sources all hash and with no pointer record stored decides Miss
with no cache entry; after the commit pipeline runs for it (pointer saved,
output tree copied) the identical unit against unchanged sources decides
Hit, provided the committed output tree holds at least one file and the
pointer record survives serialization. -/
theorem scenarioA_roundtrip (digest : String → String) (parse : String → Option Pointer)
    (ser : Pointer → String) (fsys : FsTree) (playbookDir : List String)
    (componentName : String) (worktree : List String) (key : String)
    (sources : List String) (outputDir : String) (hs : List (String × String))
    (ts : String) (es : List (String × FsTree))
    (h1 : computeHashes digest fsys worktree sources = some hs)
    (hnp : FsTree.find? (pointerPathOf playbookDir DEFAULT_CACHE_DIR componentName key
        (computeContentHash digest hs)) fsys = none)
    (hser : parse (ser ⟨computeContentHash digest hs, outputDir, hs, ts⟩) =
      some ⟨computeContentHash digest hs, outputDir, hs, ts⟩)
    (hsrc : FsTree.find? (worktree ++ splitPath outputDir)
        (fsys.write (componentHashDirOf playbookDir DEFAULT_CACHE_DIR componentName ++
            splitPath key ++ splitPath (computeContentHash digest hs ++ ".json"))
          (.file (ser ⟨computeContentHash digest hs, outputDir, hs, ts⟩))) = some (.dir es))
    (hne : checkDirectoryHasFiles es = true)
    (h2 : computeHashes digest
        (commitEntry digest ser fsys playbookDir
          (componentHashDirOf playbookDir DEFAULT_CACHE_DIR componentName) key worktree
          sources outputDir (some hs) ts) worktree sources = some hs) :
    decideEntry digest parse fsys playbookDir DEFAULT_CACHE_DIR componentName worktree key
        sources outputDir false = .miss .noPointer ∧
    decideEntry digest parse
        (commitEntry digest ser fsys playbookDir
          (componentHashDirOf playbookDir DEFAULT_CACHE_DIR componentName) key worktree
          sources outputDir (some hs) ts)
        playbookDir DEFAULT_CACHE_DIR componentName worktree key sources outputDir false =
      .hit := by
  constructor
  · rw [decideEntry_hashed h1]
    have hload : loadPointerFile parse fsys
        (pointerPathOf playbookDir DEFAULT_CACHE_DIR componentName key
          (computeContentHash digest hs)) = none := by
      simp [loadPointerFile, readFile, hnp]
    rw [hload]
    simp
  · have hcommit : commitEntry digest ser fsys playbookDir
        (componentHashDirOf playbookDir DEFAULT_CACHE_DIR componentName) key worktree
        sources outputDir (some hs) ts =
        FsTree.write
          (cachedOutputPathOf playbookDir DEFAULT_CACHE_DIR (computeContentHash digest hs)
            outputDir)
          (fsys.write (componentHashDirOf playbookDir DEFAULT_CACHE_DIR componentName ++
              splitPath key ++ splitPath (computeContentHash digest hs ++ ".json"))
            (.file (ser ⟨computeContentHash digest hs, outputDir, hs, ts⟩)))
          (.dir es) := by
      simp only [commitEntry]
      rw [hsrc]
    have hpfind : FsTree.find?
        (pointerPathOf playbookDir DEFAULT_CACHE_DIR componentName key
          (computeContentHash digest hs))
        (FsTree.write
          (cachedOutputPathOf playbookDir DEFAULT_CACHE_DIR (computeContentHash digest hs)
            outputDir)
          (fsys.write (componentHashDirOf playbookDir DEFAULT_CACHE_DIR componentName ++
              splitPath key ++ splitPath (computeContentHash digest hs ++ ".json"))
            (.file (ser ⟨computeContentHash digest hs, outputDir, hs, ts⟩)))
          (.dir es)) =
        some (.file (ser ⟨computeContentHash digest hs, outputDir, hs, ts⟩)) := by
      rw [pointerPathOf_shape, cachedOutputPathOf_shape]
      rw [write_find_diverge (playbookDir ++ splitPath DEFAULT_CACHE_DIR)
        (fsys.write (componentHashDirOf playbookDir DEFAULT_CACHE_DIR componentName ++
            splitPath key ++ splitPath (computeContentHash digest hs ++ ".json"))
          (.file (ser ⟨computeContentHash digest hs, outputDir, hs, ts⟩)))
        (FsTree.dir es) "outputs" "hashes"
        (splitPath (computeContentHash digest hs) ++ splitPath outputDir)
        (splitPath componentName ++ (splitPath key ++
          splitPath (computeContentHash digest hs ++ ".json")))
        (by decide)]
      rw [← pointerPathOf_shape]
      exact write_find_self _ _ _
    have hload2 : loadPointerFile parse
        (commitEntry digest ser fsys playbookDir
          (componentHashDirOf playbookDir DEFAULT_CACHE_DIR componentName) key worktree
          sources outputDir (some hs) ts)
        (pointerPathOf playbookDir DEFAULT_CACHE_DIR componentName key
          (computeContentHash digest hs)) =
        some ⟨computeContentHash digest hs, outputDir, hs, ts⟩ := by
      rw [hcommit]
      simp only [loadPointerFile, readFile]
      rw [hpfind]
      exact hser
    have hcheck : checkOutputsExist
        (commitEntry digest ser fsys playbookDir
          (componentHashDirOf playbookDir DEFAULT_CACHE_DIR componentName) key worktree
          sources outputDir (some hs) ts)
        (cachedOutputPathOf playbookDir DEFAULT_CACHE_DIR (computeContentHash digest hs)
          outputDir) = true := by
      rw [hcommit]
      simp [checkOutputsExist, write_find_self, hne]
    rw [decideEntry_hashed h2, hload2]
    simp [hcheck]

/-- C2 witness: the concrete Scenario A with sources a.txt and b.txt and a
non empty output tree misses before the commit and hits afterwards. -/
theorem scenarioA_roundtrip_w :
    decideEntry (fun _ => "h") (fun _ => some ⟨"h", "out", [("a.txt", "h"), ("b.txt", "h")], "t"⟩)
        (FsTree.dir [("wt",
          .dir [("a.txt", .file "x"), ("b.txt", .file "y"), ("out", .dir [("f.txt", .file "z")])])])
        ["pb"] DEFAULT_CACHE_DIR "comp" ["wt"] "k" ["a.txt", "b.txt"] "out" false =
      .miss .noPointer ∧
    decideEntry (fun _ => "h") (fun _ => some ⟨"h", "out", [("a.txt", "h"), ("b.txt", "h")], "t"⟩)
        (commitEntry (fun _ => "h") (fun _ => "P")
          (FsTree.dir [("wt",
            .dir [("a.txt", .file "x"), ("b.txt", .file "y"), ("out", .dir [("f.txt", .file "z")])])])
          ["pb"] (componentHashDirOf ["pb"] DEFAULT_CACHE_DIR "comp") "k" ["wt"]
          ["a.txt", "b.txt"] "out" (some [("a.txt", "h"), ("b.txt", "h")]) "t")
        ["pb"] DEFAULT_CACHE_DIR "comp" ["wt"] "k" ["a.txt", "b.txt"] "out" false = .hit :=
  scenarioA_roundtrip (fun _ => "h") (fun _ => some ⟨"h", "out", [("a.txt", "h"), ("b.txt", "h")], "t"⟩)
    (fun _ => "P")
    (FsTree.dir [("wt",
      .dir [("a.txt", .file "x"), ("b.txt", .file "y"), ("out", .dir [("f.txt", .file "z")])])])
    ["pb"] "comp" ["wt"] "k" ["a.txt", "b.txt"] "out" [("a.txt", "h"), ("b.txt", "h")] "t"
    [("f.txt", .file "z")] rfl rfl rfl rfl rfl rfl

/-- C6: the decision phase reads pointers and outputs under the configured
cache directory, but the commit phase hardcodes the default cache directory
for the output copy (line 309) while writing the pointer under the
configured one; with a custom cache directory the pointer lands under
custom-cache, the outputs land under the default directory, the configured
output location stays empty, and re-evaluation misses with cached outputs
missing.  Evaluated at the failing input. -/
theorem custom_cachedir_commit_mismatch :
    readFile
        (commitEntry (fun _ => "h") (fun _ => "P")
          (FsTree.dir [("wt", .dir [("a.txt", .file "x"), ("out", .dir [("f.txt", .file "z")])])])
          ["pb"] (componentHashDirOf ["pb"] "custom-cache" "comp") "k" ["wt"] ["a.txt"] "out"
          (some [("a.txt", "h")]) "t")
        (pointerPathOf ["pb"] "custom-cache" "comp" "k" "h") = some "P" ∧
    checkOutputsExist
        (commitEntry (fun _ => "h") (fun _ => "P")
          (FsTree.dir [("wt", .dir [("a.txt", .file "x"), ("out", .dir [("f.txt", .file "z")])])])
          ["pb"] (componentHashDirOf ["pb"] "custom-cache" "comp") "k" ["wt"] ["a.txt"] "out"
          (some [("a.txt", "h")]) "t")
        (cachedOutputPathOf ["pb"] "custom-cache" "h" "out") = false ∧
    checkOutputsExist
        (commitEntry (fun _ => "h") (fun _ => "P")
          (FsTree.dir [("wt", .dir [("a.txt", .file "x"), ("out", .dir [("f.txt", .file "z")])])])
          ["pb"] (componentHashDirOf ["pb"] "custom-cache" "comp") "k" ["wt"] ["a.txt"] "out"
          (some [("a.txt", "h")]) "t")
        (cachedOutputPathOf ["pb"] DEFAULT_CACHE_DIR "h" "out") = true ∧
    decideEntry (fun _ => "h") (fun _ => some ⟨"h", "out", [("a.txt", "h")], "t"⟩)
        (commitEntry (fun _ => "h") (fun _ => "P")
          (FsTree.dir [("wt", .dir [("a.txt", .file "x"), ("out", .dir [("f.txt", .file "z")])])])
          ["pb"] (componentHashDirOf ["pb"] "custom-cache" "comp") "k" ["wt"] ["a.txt"] "out"
          (some [("a.txt", "h")]) "t")
        ["pb"] "custom-cache" "comp" ["wt"] "k" ["a.txt"] "out" false =
      .miss .outputsMissing := by
  decide

end CollectorCache
